import Mathlib

/-!
Shallow embedding of `transcribe_audio_sippulse.py` (TalkIntel transcription
utility) and proofs about its specification claims.

The file models:
* the path helpers used by the discoverer (`pathlib.Path.stem` / `.suffix`
  on POSIX-style path strings, plus ASCII lower-casing of extensions);
* `get_unique_files` (recursive discovery, grouping by stem, format-priority
  selection, duplicate reporting, final alphabetical sort);
* `convert_audio_with_ffmpeg` as an outcome-indexed state transformer over
  the temporary file it creates;
* the post-normalization part of `transcribe_file` (upload outcomes and
  temp-file cleanup), and its two request-shaping modes (URL-embedded query
  string built with `urllib.parse.quote` over `json.dumps` output, versus a
  separate params mapping);
* `process_directory` as a trace-producing sequential loop with Python
  truthiness for the `max_files` cap, and `main`'s dispatch/persistence.
-/

namespace TalkIntel

/-! ### Path helpers (pathlib semantics on POSIX path strings) -/

/-- Split a character list on `/` separators. -/
def splitSlash : List Char → List (List Char)
  | [] => [[]]
  | c :: rest =>
    if c = '/' then [] :: splitSlash rest
    else
      match splitSlash rest with
      | [] => [[c]]
      | h :: t => (c :: h) :: t

/-- The final path component (`Path.name`): everything after the last `/`. -/
def pathName (p : String) : String :=
  match (splitSlash p.data).getLast? with
  | some n => ⟨n⟩
  | none => p

/-- Index of the last occurrence of `.` in a character list, if any. -/
def lastDotIdx (l : List Char) : Option Nat :=
  match l with
  | [] => none
  | c :: rest =>
    match lastDotIdx rest with
    | some i => some (i + 1)
    | none => if c = '.' then some 0 else none

/-- `Path.suffix`: the final extension of the last component, including the
dot; empty when the name has no dot, starts with its only dot, or ends in
a dot (CPython: `name[i:]` when `0 < i < len(name) - 1`). -/
def pathSuffix (p : String) : String :=
  let name := pathName p
  match lastDotIdx name.data with
  | some i =>
    if 0 < i ∧ i < name.length - 1 then ⟨name.data.drop i⟩ else ""
  | none => ""

/-- `Path.stem`: the last component minus `pathSuffix`. -/
def pathStem (p : String) : String :=
  let name := pathName p
  match lastDotIdx name.data with
  | some i =>
    if 0 < i ∧ i < name.length - 1 then ⟨name.data.take i⟩ else name
  | none => name

/-- ASCII lower-casing of a string (`str.lower()` restricted to the ASCII
range, which covers every supported audio extension). -/
def strLower (s : String) : String := ⟨s.data.map Char.toLower⟩

/-! ### File Discoverer: `get_unique_files` -/

/-- One entry of the recursive directory walk (`Path.rglob('*')` order),
with the predicate `is_file()` attached. -/
structure FileEntry where
  path : String
  isFile : Bool
deriving DecidableEq, Repr

/-- `audio_extensions = ['.mp3', '.wav', '.flac', '.m4a', '.ogg', '.wma']` -/
def audio_extensions : List String :=
  [".mp3", ".wav", ".flac", ".m4a", ".ogg", ".wma"]

/-- `extension_priority = {ext: i for i, ext in enumerate(audio_extensions)}`
queried with `.get(extension, 999)`. -/
def extension_priority (ext : String) : Nat :=
  match audio_extensions.indexOf? ext with
  | some i => i
  | none => 999

/-- The per-file record appended to a group:
`{'path': str(file_path), 'extension': ext, 'priority': priority}`. -/
structure FileInfo where
  path : String
  extension : String
  priority : Nat
deriving DecidableEq, Repr

/-- Build the `FileInfo` record for one discovered file. -/
def mkFileInfo (p : String) : FileInfo :=
  { path := p
    extension := strLower (pathSuffix p)
    priority := extension_priority (strLower (pathSuffix p)) }

/-- Append `v` to the group keyed `k` of an insertion-ordered dict,
creating the group at the end when absent (Python dict semantics). -/
def groupInsert (groups : List (String × List FileInfo)) (k : String)
    (v : FileInfo) : List (String × List FileInfo) :=
  match groups with
  | [] => [(k, [v])]
  | (k', vs) :: rest =>
    if k' = k then (k', vs ++ [v]) :: rest
    else (k', vs) :: groupInsert rest k v

/-- Whether an entry passes the discovery filter:
`file_path.is_file() and file_path.suffix.lower() in audio_extensions`. -/
def isAudioFile (e : FileEntry) : Bool :=
  e.isFile && decide (strLower (pathSuffix e.path) ∈ audio_extensions)

/-- One iteration of the `rglob` loop of `get_unique_files`. -/
def buildStep (gs : List (String × List FileInfo)) (e : FileEntry) :
    List (String × List FileInfo) :=
  if isAudioFile e then groupInsert gs (pathStem e.path) (mkFileInfo e.path)
  else gs

/-- The `file_groups` dict after the `rglob` loop of `get_unique_files`. -/
def buildGroups (entries : List FileEntry) : List (String × List FileInfo) :=
  entries.foldl buildStep []

/-- The keys of the group dict, in insertion order. -/
def groupKeys (gs : List (String × List FileInfo)) : List String := gs.map (·.1)

/-- Every file recorded under a group has that group's key as its stem. -/
def StemInv (gs : List (String × List FileInfo)) : Prop :=
  ∀ g ∈ gs, ∀ f ∈ g.2, pathStem f.path = g.1

/-- `files.sort(key=lambda x: x['priority'])`: stable ascending sort. -/
def sortByPriority (files : List FileInfo) : List FileInfo :=
  files.insertionSort (fun a b => a.priority ≤ b.priority)

/-- Code-point lexicographic `≤` on character lists, as Python compares
strings. -/
def listLe : List Char → List Char → Bool
  | [], _ => true
  | _ :: _, [] => false
  | a :: as, b :: bs =>
    if a.toNat < b.toNat then true
    else if b.toNat < a.toNat then false
    else listLe as bs

/-- Code-point lexicographic `≤` on strings. -/
def pyStrLe (s t : String) : Bool := listLe s.data t.data

/-- `unique_files.sort()`: alphabetical (code-point lexicographic) sort. -/
def sortAlpha (paths : List String) : List String :=
  paths.insertionSort (fun a b => pyStrLe a b)

/-- A directory argument: `none` when `os.path.exists` fails, otherwise the
`rglob` listing of the tree. -/
abbrev Directory := Option (List FileEntry)

/-- The file selected from one group: head of the priority-sorted list
(`files[0]` after `files.sort(key=...)`). -/
def selectBestPath (g : String × List FileInfo) : Option String :=
  match sortByPriority g.2 with
  | [] => none
  | best :: _ => some best.path

/-- `get_unique_files`: group by stem, pick the lowest-priority file of each
group, sort the chosen paths alphabetically.  A missing directory yields
`[]`. -/
def get_unique_files (dir : Directory) : List String :=
  match dir with
  | none => []
  | some entries =>
    let unique := (buildGroups entries).foldl
      (fun acc g =>
        match sortByPriority g.2 with
        | [] => acc
        | best :: _ => acc ++ [best.path])
      []
    sortAlpha unique

/-- The duplicate log: for every group with more than one candidate, the
stem together with the extensions of the files dropped
(`[f['extension'] for f in files[1:]]` after the priority sort). -/
def duplicateReport (entries : List FileEntry) : List (String × List String) :=
  (buildGroups entries).filterMap
    (fun g =>
      let sorted := sortByPriority g.2
      if sorted.length > 1 then
        some (g.1, (sorted.drop 1).map (·.extension))
      else none)

/-! ### Audio Normalizer: `convert_audio_with_ffmpeg`

The function first creates a named temporary output file (`delete=False`),
then runs the external transcoder.  We index its behaviour by the runtime
event observed at the `subprocess.run` call and thread the state of the
temporary file explicitly. -/

/-- The runtime event at/after the `subprocess.run('ffmpeg', ...)` call. -/
inductive ConvEvent where
  /-- the transcoder exited with return code 0 -/
  | exitOk
  /-- the transcoder exited with a nonzero return code -/
  | exitNonzero
  /-- `subprocess.TimeoutExpired` after the 60 s limit -/
  | timeout
  /-- `FileNotFoundError`: the transcoder executable is unavailable -/
  | exeNotFound
  /-- any other exception -/
  | otherError
deriving DecidableEq, Repr

/-- State of one temporary file: whether it currently exists on disk and
how many times `os.unlink` has been called on it. -/
structure TempState where
  present : Bool
  unlinks : Nat
deriving DecidableEq, Repr

/-- `if os.path.exists(f): os.unlink(f)` -/
def unlinkIfExists (s : TempState) : TempState :=
  if s.present then { present := false, unlinks := s.unlinks + 1 } else s

/-- `convert_audio_with_ffmpeg`, given the event at the subprocess call:
returns the converted path (on exit code 0) or `None`, together with the
final state of the temporary output file it created.  The success branch
and the `exitNonzero`, `timeout` and `otherError` handlers follow the
source; the `FileNotFoundError` handler prints and returns `None` without
touching the file. -/
def convert_audio_with_ffmpeg (tmpPath : String) (e : ConvEvent) :
    Option String × TempState :=
  let s : TempState := { present := true, unlinks := 0 }
  match e with
  | .exitOk => (some tmpPath, s)
  | .exitNonzero => (none, unlinkIfExists s)
  | .timeout => (none, unlinkIfExists s)
  | .exeNotFound => (none, s)
  | .otherError => (none, unlinkIfExists s)

/-! ### Transcription Client: cleanup behaviour of `transcribe_file`

After normalization succeeds, everything that can fail sits inside one
`try` block whose four exits are: HTTP 200, any other status, a
`requests.exceptions.RequestException`, and any other exception.  Every
exit runs `if os.path.exists(converted_file): os.unlink(converted_file)`
before returning. -/

/-- Outcome of the upload `try` block, generic in the opaque JSON result
type `ρ`. -/
inductive UploadOutcome (ρ : Type) where
  /-- HTTP 200 with parsed JSON body -/
  | http200 (body : ρ)
  /-- any non-200 HTTP status -/
  | httpErr (code : Nat)
  /-- `requests.exceptions.RequestException` -/
  | requestExc
  /-- any other exception inside the `try` block -/
  | otherExc
deriving DecidableEq, Repr

/-- The post-normalization phase of `transcribe_file`: given the outcome of
the upload and the state of the normalized temporary file, returns the
function's result and the final temp-file state. -/
def transcribe_file_upload {ρ : Type} (o : UploadOutcome ρ) (s : TempState) :
    Option ρ × TempState :=
  match o with
  | .http200 body => (some body, unlinkIfExists s)
  | .httpErr _ => (none, unlinkIfExists s)
  | .requestExc => (none, unlinkIfExists s)
  | .otherExc => (none, unlinkIfExists s)

/-- Whole-call model of `transcribe_file` for one original file: normalize,
abort on normalization failure, otherwise run the upload phase on the
fresh temporary file. -/
def transcribe_file {ρ : Type} (tmpPath : String) (conv : ConvEvent)
    (up : UploadOutcome ρ) : Option ρ × TempState :=
  match convert_audio_with_ffmpeg tmpPath conv with
  | (none, s) => (none, s)
  | (some _, s) => transcribe_file_upload up s

/-! ### Webhook Forwarder: `send_to_webhook` -/

/-- Outcome of the webhook POST. -/
inductive WebhookOutcome where
  /-- HTTP 200 -/
  | ok
  /-- any non-200 status -/
  | httpFail (code : Nat)
  /-- any exception (network error, bad payload, ...) -/
  | exc
deriving DecidableEq, Repr

/-- `send_to_webhook` returns `True` on HTTP 200 and `False` otherwise;
the `except Exception` handler converts every exception into `False`, so
the function is total (never raises past its boundary). -/
def send_to_webhook (o : WebhookOutcome) : Bool :=
  match o with
  | .ok => true
  | .httpFail _ => false
  | .exc => false

/-! ### Batch Orchestrator: `process_directory` -/

/-- One element of the success list: `{'file': ..., 'transcription': ...}`. -/
structure BatchEntry (ρ : Type) where
  file : String
  transcription : ρ
deriving DecidableEq, Repr

/-- Observable events of the batch loop. -/
inductive Ev (ρ : Type) where
  /-- `transcribe_file` invoked on a file, with its result -/
  | proc (file : String) (result : Option ρ)
  /-- `send_to_webhook` invoked for a file, with its returned Bool -/
  | hook (file : String) (ok : Bool)
  /-- `time.sleep(secs)` -/
  | sleep (secs : Nat)
deriving DecidableEq, Repr

/-- Python truthiness of the optional integer cap `max_files`
(`if max_files:`): `None` and `0` are falsy. -/
def pyTruthyNat : Option Nat → Bool
  | none => false
  | some n => n != 0

/-- The `for i, audio_file in enumerate(unique_files, 1)` loop body, with
`i` the 1-based index and `total` the length of the truncated list:
transcribe, append on success, forward to the webhook when an endpoint is
set, sleep 2 s when `i < total`. -/
def runBatch {ρ : Type} (oracle : String → Option ρ)
    (who : String → WebhookOutcome) (endpoint : Option String) (total : Nat) :
    Nat → List String → List (BatchEntry ρ) × List (Ev ρ)
  | _, [] => ([], [])
  | i, f :: rest =>
    let r := oracle f
    let entry : List (BatchEntry ρ) :=
      match r with
      | some t => [⟨f, t⟩]
      | none => []
    let hookEvs : List (Ev ρ) :=
      match r, endpoint with
      | some _, some _ => [.hook f (send_to_webhook (who f))]
      | _, _ => []
    let sleepEvs : List (Ev ρ) := if i < total then [.sleep 2] else []
    (entry ++ (runBatch oracle who endpoint total (i + 1) rest).1,
      (.proc f r :: hookEvs ++ sleepEvs) ++ (runBatch oracle who endpoint total (i + 1) rest).2)

/-- Result of one `process_directory` call: the returned success list, the
files actually iterated (after the cap), and the event trace. -/
structure BatchRun (ρ : Type) where
  results : List (BatchEntry ρ)
  processed : List String
  trace : List (Ev ρ)
deriving DecidableEq, Repr

/-- `process_directory`: discover unique files, return `[]` when none,
truncate with `unique_files[:max_files]` when `max_files` is truthy, then
run the sequential loop.  `oracle` gives each file's net `transcribe_file`
result and `who` each file's webhook outcome. -/
def process_directory {ρ : Type} (oracle : String → Option ρ)
    (who : String → WebhookOutcome) (dir : Directory)
    (webhook_endpoint : Option String) (max_files : Option Nat) : BatchRun ρ :=
  let unique_files := get_unique_files dir
  if unique_files.isEmpty then ⟨[], [], []⟩
  else
    let files :=
      if pyTruthyNat max_files then unique_files.take (max_files.getD 0)
      else unique_files
    ⟨(runBatch oracle who webhook_endpoint files.length 1 files).1, files,
      (runBatch oracle who webhook_endpoint files.length 1 files).2⟩

/-! ### `main`: CLI dispatch and persistence -/

/-- The parsed CLI arguments relevant to the claims. -/
structure Args where
  test : Bool
  noPreset : Bool
  listFiles : Bool
  maxFiles : Option Nat
  webhook : Option String
deriving DecidableEq, Repr

/-- `x.endswith('.mp3')` -/
def endsWithMp3 (x : String) : Bool :=
  ".mp3".data.isSuffixOf x.data

/-- The sort key of the test-mode candidate sort:
`(0 if x.endswith('.mp3') else 1, x)`, compared lexicographically. -/
def testKeyLe (x y : String) : Bool :=
  let kx : Nat := if endsWithMp3 x then 0 else 1
  let ky : Nat := if endsWithMp3 y then 0 else 1
  if kx < ky then true
  else if ky < kx then false
  else pyStrLe x y

/-- Test mode's candidate scan: all audio files of the tree, sorted with
`testKeyLe`; the test file is the head, if any. -/
def findTestFile (dir : Directory) : Option String :=
  match dir with
  | none => none
  | some entries =>
    let audio_files := (entries.filter isAudioFile).map (·.path)
    (audio_files.insertionSort (fun a b => testKeyLe a b)).head?

/-- The `use_preset` argument of every `transcribe_file` call a `main`
invocation issues: none in list-only mode; `not args.no_preset` for the
single test-mode call; in batch mode `process_directory` calls
`transcribe_file(audio_file)` with the default `use_preset=True` for
every processed file. -/
def mainRequestPresetFlags {ρ : Type} (args : Args) (oracle : String → Option ρ)
    (who : String → WebhookOutcome) (dir : Directory) : List Bool :=
  if args.listFiles then []
  else if args.test then
    match findTestFile dir with
    | some _ => [!args.noPreset]
    | none => []
  else
    (process_directory oracle who dir args.webhook args.maxFiles).processed.map
      (fun _ => true)

/-- `main`'s persistence step: `if results:` write the timestamped JSON
file. -/
def mainWritesOutput {ρ : Type} (results : List (BatchEntry ρ)) : Bool :=
  !results.isEmpty

/-! ### Request shaping: `json.dumps`, `urllib.parse.quote`, and the two
modes of `transcribe_file` -/

/-- JSON values as Python's `json` module serializes them. -/
inductive JVal where
  | jbool (b : Bool)
  | jnum (n : Nat)
  | jstr (s : String)
  | jarr (xs : List JVal)
  | jobj (fields : List (String × JVal))
deriving Repr

/-- Lowercase hexadecimal digit, `n < 16`. -/
def hexDigitLower (n : Nat) : Char :=
  if n < 10 then Char.ofNat (48 + n) else Char.ofNat (97 + (n - 10))

/-- Uppercase hexadecimal digit, `n < 16`. -/
def hexDigitUpper (n : Nat) : Char :=
  if n < 10 then Char.ofNat (48 + n) else Char.ofNat (65 + (n - 10))

/-- `\uXXXX` escape (4 lowercase hex digits) for a 16-bit code unit. -/
def uEscape (n : Nat) : List Char :=
  ['\\', 'u', hexDigitLower (n / 4096 % 16), hexDigitLower (n / 256 % 16),
    hexDigitLower (n / 16 % 16), hexDigitLower (n % 16)]

/-- `json.dumps` escaping of one character under `ensure_ascii=True`:
the two-character escapes for the JSON specials, `\uXXXX` for other
control or non-ASCII characters (surrogate pairs above U+FFFF),
the character itself otherwise. -/
def jsonEscChar (c : Char) : List Char :=
  if c = '"' then ['\\', '"']
  else if c = '\\' then ['\\', '\\']
  else if c = '\n' then ['\\', 'n']
  else if c = '\r' then ['\\', 'r']
  else if c = '\t' then ['\\', 't']
  else if c.toNat = 8 then ['\\', 'b']
  else if c.toNat = 12 then ['\\', 'f']
  else if c.toNat < 32 ∨ 126 < c.toNat then
    if c.toNat < 65536 then uEscape c.toNat
    else
      let u := c.toNat - 65536
      uEscape (55296 + u / 1024) ++ uEscape (56320 + u % 1024)
  else [c]

/-- A JSON string literal: quotes around the escaped characters. -/
def jsonDumpStr (s : String) : String :=
  ⟨'"' :: (s.data.map jsonEscChar).flatten ++ ['"']⟩

/-- `json.dumps` with its defaults (`ensure_ascii=True`, separators
`', '` and `': '`, insertion order preserved), written with explicit fuel
so that it evaluates by kernel reduction; the fuel bounds the nesting
depth, which is 4 for the values in the source. -/
def jsonDumpsF : Nat → JVal → String
  | 0, _ => ""
  | _ + 1, .jbool b => if b then "true" else "false"
  | _ + 1, .jnum n => toString n
  | _ + 1, .jstr s => jsonDumpStr s
  | fuel + 1, .jarr xs =>
    "[" ++ String.intercalate ", " (xs.map (jsonDumpsF fuel)) ++ "]"
  | fuel + 1, .jobj fields =>
    "\x7b" ++
      String.intercalate ", "
        (fields.map (fun kv => jsonDumpStr kv.1 ++ ": " ++ jsonDumpsF fuel kv.2)) ++
      "\x7d"

/-- `json.dumps` at more fuel than any value in the source nests. -/
def jsonDumps (v : JVal) : String := jsonDumpsF 8 v

/-- The UTF-8 bytes of one character. -/
def utf8Bytes (c : Char) : List Nat :=
  if c.toNat < 128 then [c.toNat]
  else if c.toNat < 2048 then [192 + c.toNat / 64, 128 + c.toNat % 64]
  else if c.toNat < 65536 then
    [224 + c.toNat / 4096, 128 + c.toNat / 64 % 64, 128 + c.toNat % 64]
  else
    [240 + c.toNat / 262144, 128 + c.toNat / 4096 % 64, 128 + c.toNat / 64 % 64,
      128 + c.toNat % 64]

/-- The UTF-8 bytes of a character list. -/
def listBytes (l : List Char) : List Nat := (l.map utf8Bytes).flatten

/-- The UTF-8 bytes of a string. -/
def strBytes (s : String) : List Nat := listBytes s.data

/-- `urllib.parse.quote`'s always-safe set: ASCII letters, digits, and
`_.-~`. -/
def quoteSafe (c : Char) : Bool :=
  (65 ≤ c.toNat && c.toNat ≤ 90) || (97 ≤ c.toNat && c.toNat ≤ 122) ||
  (48 ≤ c.toNat && c.toNat ≤ 57) || c = '_' || c = '.' || c = '-' || c = '~'

/-- `urllib.parse.quote` on one character with default `safe='/'`: safe
characters pass through, every other character becomes `%XX` (uppercase
hex) per UTF-8 byte. -/
def quoteChar (c : Char) : List Char :=
  if quoteSafe c || c = '/' then [c]
  else ((utf8Bytes c).map
    (fun b => ['%', hexDigitUpper (b / 16), hexDigitUpper (b % 16)])).flatten

/-- `urllib.parse.quote` on a character list. -/
def listQuote (l : List Char) : List Char := (l.map quoteChar).flatten

/-- `urllib.parse.quote` with its default `safe='/'`. -/
def quote (s : String) : String := ⟨listQuote s.data⟩

/-- Numeric value of a hexadecimal digit character. -/
def hexDigitVal (c : Char) : Nat :=
  if 48 ≤ c.toNat ∧ c.toNat ≤ 57 then c.toNat - 48
  else if 65 ≤ c.toNat ∧ c.toNat ≤ 70 then c.toNat - 55
  else if 97 ≤ c.toNat ∧ c.toNat ≤ 102 then c.toNat - 87
  else 0

/-- Percent-decoding of a query-string component to its byte sequence;
`%XX` escapes yield one byte, unescaped characters contribute their UTF-8
bytes (a stray `%` not followed by two characters stays literal). -/
def pctDecodeBytes : List Char → List Nat
  | [] => []
  | c :: rest =>
    if c = '%' then
      match rest with
      | h1 :: h2 :: rest2 =>
        (hexDigitVal h1 * 16 + hexDigitVal h2) :: pctDecodeBytes rest2
      | [h1] => utf8Bytes c ++ utf8Bytes h1
      | [] => utf8Bytes c
    else utf8Bytes c ++ pctDecodeBytes rest

/-- Split a character list on every occurrence of `sep`. -/
def splitChar (sep : Char) : List Char → List (List Char)
  | [] => [[]]
  | c :: rest =>
    if c = sep then [] :: splitChar sep rest
    else
      match splitChar sep rest with
      | [] => [[c]]
      | h :: t => (c :: h) :: t

/-- Split at the first occurrence of `sep`: the part before and the part
after (the whole list and `[]` when `sep` is absent). -/
def splitFirst (sep : Char) : List Char → List Char × List Char
  | [] => ([], [])
  | c :: rest =>
    if c = sep then ([], rest)
    else
      let (pre, post) := splitFirst sep rest
      (c :: pre, post)

/-- Parse one `name=value` query component: name, decoded value bytes. -/
def parseKV (kv : List Char) : String × List Nat :=
  let (k, v) := splitFirst '=' kv
  (⟨k⟩, pctDecodeBytes v)

/-- Parse a query string into `(name, decoded value bytes)` pairs. -/
def parseQuery (q : List Char) : List (String × List Nat) :=
  (splitChar '&' q).map parseKV

/-- `self.base_url = "https://api.sippulse.ai"` -/
def base_url : String := "https://api.sippulse.ai"

/-- The fixed 20-sentiment taxonomy. -/
def sentimentList : List JVal :=
  [.jstr "alegria", .jstr "confiança", .jstr "medo", .jstr "surpresa",
    .jstr "tristeza", .jstr "repugnância", .jstr "raiva", .jstr "antecipação",
    .jstr "neutro", .jstr "frustração", .jstr "satisfação", .jstr "empolgação",
    .jstr "decepção", .jstr "curiosidade", .jstr "amor", .jstr "ódio",
    .jstr "tédio", .jstr "confusão", .jstr "constrangimento", .jstr "culpa"]

/-- The custom-extraction schema (agent, client, resolution). -/
def customSchema : List JVal :=
  [.jobj [("type", .jstr "string"), ("title", .jstr "agent"),
      ("description", .jstr "Identifique o nome do agente se houver sido falado.")],
    .jobj [("type", .jstr "string"), ("title", .jstr "client"),
      ("description", .jstr "Identifique o nome do cliente se tiver sido falado")],
    .jobj [("type", .jstr "boolean"), ("title", .jstr "resolution"),
      ("description", .jstr "O problema foi resolvido?")]]

/-- The `insights` dict built by the `use_preset=True` branch. -/
def insightsPreset : JVal :=
  .jobj [("summarization", .jbool true),
    ("topic_detection", .jobj [("topics", .jarr [])]),
    ("sentiment_analysis", .jobj [("sentiments", .jarr sentimentList)]),
    ("custom", .jarr customSchema)]

/-- The `anonymize` dict built by the `use_preset=True` branch. -/
def anonymizePreset : JVal :=
  .jobj [("sequence", .jnum 3),
    ("entities", .jarr [.jstr "CNPJ", .jstr "CPF", .jstr "CREDIT_CARD",
      .jstr "LOCATION"])]

/-- The `insights` dict built by the `use_preset=False` branch (a second,
textually identical literal in the source). -/
def insightsRaw : JVal :=
  .jobj [("summarization", .jbool true),
    ("topic_detection", .jobj [("topics", .jarr [])]),
    ("sentiment_analysis", .jobj [("sentiments", .jarr sentimentList)]),
    ("custom", .jarr customSchema)]

/-- The `anonymize` dict built by the `use_preset=False` branch. -/
def anonymizeRaw : JVal :=
  .jobj [("sequence", .jnum 3),
    ("entities", .jarr [.jstr "CNPJ", .jstr "CPF", .jstr "CREDIT_CARD",
      .jstr "LOCATION"])]

/-- The URL of the `use_preset=True` branch: every routing parameter and
both JSON configurations URL-encoded into the query string. -/
def presetUrl : String :=
  base_url ++ "/asr/transcribe?model=pulse-precision&language=pt" ++
    "&response_format=diarization&insights=" ++ quote (jsonDumps insightsPreset) ++
    "&anonymize=" ++ quote (jsonDumps anonymizePreset)

/-- The params mapping of the `use_preset=False` branch. -/
def rawParams : List (String × String) :=
  [("model", "pulse-precision"), ("language", "pt"),
    ("response_format", "diarization"), ("insights", jsonDumps insightsRaw),
    ("anonymize", jsonDumps anonymizeRaw)]

/-- A remote request as the server observes it: endpoint, decoded query
parameters (name, value bytes), and the multipart file part
`('file', (file_name, <bytes>, 'audio/mpeg'))`. -/
structure EffectiveRequest where
  endpoint : String
  params : List (String × List Nat)
  filePart : String × String × String
deriving DecidableEq, Repr

/-- The effective request of the preset mode: split the URL at `?` and
decode the query string. -/
def effectivePreset (fileName : String) : EffectiveRequest :=
  let (path, query) := splitFirst '?' presetUrl.data
  { endpoint := ⟨path⟩
    params := parseQuery query
    filePart := ("file", fileName, "audio/mpeg") }

/-- The effective request of the raw mode: the params mapping is encoded
into the query string by the HTTP library, so the server decodes exactly
the given values. -/
def effectiveRaw (fileName : String) : EffectiveRequest :=
  { endpoint := base_url ++ "/asr/transcribe"
    params := rawParams.map (fun kv => (kv.1, strBytes kv.2))
    filePart := ("file", fileName, "audio/mpeg") }

/-! ### Sanity checks of the embedding on concrete inputs -/

example : pathSuffix "dir/sub/a.MP3" = ".MP3" := by decide
example : strLower (pathSuffix "dir/sub/a.MP3") = ".mp3" := by decide
example : pathStem "dir/sub/a.MP3" = "a" := by decide
example : pathSuffix "dir/.bashrc" = "" := by decide
example : pathStem "dir/a.tar.gz" = "a.tar" := by decide

example :
    get_unique_files (some [⟨"d/a.wav", true⟩, ⟨"d/a.mp3", true⟩,
      ⟨"d/b.flac", true⟩, ⟨"d/sub", false⟩]) = ["d/a.mp3", "d/b.flac"] := by
  decide

example :
    duplicateReport [⟨"d/a.wav", true⟩, ⟨"d/a.mp3", true⟩, ⟨"d/a.flac", true⟩]
      = [("a", [".wav", ".flac"])] := by decide

example : jsonDumps (.jobj [("a b", .jarr [.jnum 3, .jstr "ç"])])
    = "\x7b\"a b\": [3, \"\\u00e7\"]\x7d" := by decide

example : quote "a b/ç\"" = "a%20b/%C3%A7%22" := by decide

/-! ### Lemmas: the percent-encoding round trip -/

theorem char_toNat_lt (c : Char) : c.toNat < 1114112 := by
  rcases c.valid with h | h
  · exact Nat.lt_trans h (by decide)
  · exact h.2

theorem utf8Bytes_lt (c : Char) : ∀ b ∈ utf8Bytes c, b < 256 := by
  have h := char_toNat_lt c
  intro b hb
  by_cases h1 : c.toNat < 128
  · simp [utf8Bytes, h1] at hb
    omega
  · by_cases h2 : c.toNat < 2048
    · simp [utf8Bytes, h1, h2] at hb
      rcases hb with hb | hb <;> omega
    · by_cases h3 : c.toNat < 65536
      · simp [utf8Bytes, h1, h2, h3] at hb
        rcases hb with hb | hb | hb <;> omega
      · simp [utf8Bytes, h1, h2, h3] at hb
        rcases hb with hb | hb | hb | hb <;> omega

theorem hexDigitVal_hexDigitUpper : ∀ n, n < 16 → hexDigitVal (hexDigitUpper n) = n := by
  decide

theorem hexDigitUpper_ne_pct : ∀ n, n < 16 → hexDigitUpper n ≠ '%' := by decide

theorem decode_encoded_byte (b : Nat) (hb : b < 256) :
    hexDigitVal (hexDigitUpper (b / 16)) * 16 + hexDigitVal (hexDigitUpper (b % 16)) = b := by
  rw [hexDigitVal_hexDigitUpper _ (by omega),
    hexDigitVal_hexDigitUpper _ (Nat.mod_lt _ (by omega))]
  omega

theorem pctDecode_encBytes (bs : List Nat) (l : List Char) (h : ∀ b ∈ bs, b < 256) :
    pctDecodeBytes
        ((bs.map (fun b => ['%', hexDigitUpper (b / 16), hexDigitUpper (b % 16)])).flatten ++ l)
      = bs ++ pctDecodeBytes l := by
  induction bs with
  | nil => simp
  | cons b rest ih =>
    have hb : b < 256 := h b (List.mem_cons_self _ _)
    have hrest : ∀ x ∈ rest, x < 256 := fun x hx => h x (List.mem_cons_of_mem _ hx)
    simp only [List.map_cons, List.flatten_cons, List.cons_append, List.append_assoc]
    rw [pctDecodeBytes]
    simp only [eq_self_iff_true, if_true, List.nil_append]
    rw [ih hrest, decode_encoded_byte b hb]

theorem pctDecode_quoteChar (c : Char) (l : List Char) :
    pctDecodeBytes (quoteChar c ++ l) = utf8Bytes c ++ pctDecodeBytes l := by
  by_cases hs : (quoteSafe c || c = '/') = true
  · have hc : c ≠ '%' := by
      intro hcc
      subst hcc
      simp [quoteSafe] at hs
  -- safe characters pass through unescaped and are not '%'
    rw [quoteChar, if_pos hs]
    show pctDecodeBytes (c :: l) = utf8Bytes c ++ pctDecodeBytes l
    rw [pctDecodeBytes.eq_def]
    simp [hc]
  · rw [quoteChar, if_neg hs]
    exact pctDecode_encBytes _ l (utf8Bytes_lt c)

theorem pctDecode_listQuote (l : List Char) :
    pctDecodeBytes (listQuote l) = listBytes l := by
  induction l with
  | nil => rfl
  | cons c cs ih =>
    show pctDecodeBytes (quoteChar c ++ listQuote cs) = utf8Bytes c ++ listBytes cs
    rw [pctDecode_quoteChar, ih]

theorem pctDecode_quote (s : String) : pctDecodeBytes (quote s).data = strBytes s :=
  pctDecode_listQuote s.data

theorem mem_quoteChar (x c : Char) (hx : x ∈ quoteChar c) :
    (quoteSafe x || x = '/') = true ∨ x = '%' ∨ ∃ n, n < 16 ∧ x = hexDigitUpper n := by
  by_cases hs : (quoteSafe c || c = '/') = true
  · rw [quoteChar, if_pos hs] at hx
    simp at hx
    subst hx
    exact Or.inl hs
  · rw [quoteChar, if_neg hs] at hx
    simp [List.mem_flatten] at hx
    obtain ⟨b, hb, hxb⟩ := hx
    have hb256 : b < 256 := utf8Bytes_lt c b hb
    rcases hxb with hxb | hxb | hxb
    · exact Or.inr (Or.inl hxb)
    · exact Or.inr (Or.inr ⟨b / 16, by omega, hxb⟩)
    · exact Or.inr (Or.inr ⟨b % 16, Nat.mod_lt _ (by omega), hxb⟩)

theorem not_mem_listQuote (x : Char) (hsafe : quoteSafe x = false) (h1 : x ≠ '/')
    (h2 : x ≠ '%') (h3 : ∀ n, n < 16 → hexDigitUpper n ≠ x) (l : List Char) :
    x ∉ listQuote l := by
  intro hx
  simp only [listQuote, List.mem_flatten, List.mem_map] at hx
  obtain ⟨_, ⟨c, _, rfl⟩, hxc⟩ := hx
  rcases mem_quoteChar x c hxc with h | h | ⟨n, hn, hxn⟩
  · have h' : quoteSafe x = true ∨ x = '/' := by simpa using h
    rcases h' with h | h
    · rw [hsafe] at h
      exact Bool.false_ne_true h
    · exact h1 h
  · exact h2 h
  · exact h3 n hn hxn.symm

theorem amp_not_mem_quote (s : String) : '&' ∉ (quote s).data :=
  not_mem_listQuote '&' (by decide) (by decide) (by decide) (by decide) s.data

theorem eqc_not_mem_quote (s : String) : '=' ∉ (quote s).data :=
  not_mem_listQuote '=' (by decide) (by decide) (by decide) (by decide) s.data

/-! ### Lemmas: query-string splitting -/

theorem splitChar_not_mem (sep : Char) (l : List Char) (h : sep ∉ l) :
    splitChar sep l = [l] := by
  induction l with
  | nil => rfl
  | cons c cs ih =>
    have hc : ¬(c = sep) := fun hh => h (hh ▸ List.mem_cons_self _ _)
    have hcs : sep ∉ cs := fun hh => h (List.mem_cons_of_mem _ hh)
    simp [splitChar, hc, ih hcs]

theorem splitChar_append (sep : Char) (l r : List Char) (h : sep ∉ l) :
    splitChar sep (l ++ sep :: r) = l :: splitChar sep r := by
  induction l with
  | nil => simp [splitChar]
  | cons c cs ih =>
    have hc : ¬(c = sep) := fun hh => h (hh ▸ List.mem_cons_self _ _)
    have hcs : sep ∉ cs := fun hh => h (List.mem_cons_of_mem _ hh)
    simp only [List.cons_append, splitChar, if_neg hc, List.append_eq, ih hcs]

theorem splitFirst_append (sep : Char) (l r : List Char) (h : sep ∉ l) :
    splitFirst sep (l ++ sep :: r) = (l, r) := by
  induction l with
  | nil => simp [splitFirst]
  | cons c cs ih =>
    have hc : ¬(c = sep) := fun hh => h (hh ▸ List.mem_cons_self _ _)
    have hcs : sep ∉ cs := fun hh => h (List.mem_cons_of_mem _ hh)
    simp [splitFirst, hc, ih hcs]

/-! ### Lemmas: the preset URL decomposes into endpoint and query -/

theorem presetUrl_split :
    splitFirst '?' presetUrl.data =
      ("https://api.sippulse.ai/asr/transcribe".data,
        "model=pulse-precision".data ++ '&' :: ("language=pt".data ++ '&' ::
          ("response_format=diarization".data ++ '&' ::
            ("insights=".data ++ ((quote (jsonDumps insightsPreset)).data ++ '&' ::
              ("anonymize=".data ++ (quote (jsonDumps anonymizePreset)).data)))))) := by
  have hdata : presetUrl.data =
      "https://api.sippulse.ai/asr/transcribe".data ++ '?' ::
        ("model=pulse-precision".data ++ '&' :: ("language=pt".data ++ '&' ::
          ("response_format=diarization".data ++ '&' ::
            ("insights=".data ++ ((quote (jsonDumps insightsPreset)).data ++ '&' ::
              ("anonymize=".data ++ (quote (jsonDumps anonymizePreset)).data)))))) := by
    show ((base_url ++
        ("/asr/transcribe?model=pulse-precision&language=pt" ++
          "&response_format=diarization&insights=") ++
        quote (jsonDumps insightsPreset) ++ "&anonymize=" ++
        quote (jsonDumps anonymizePreset)).data) = _
    simp only [String.data_append, base_url]
    simp [List.append_assoc, List.cons_append, List.nil_append]
  rw [hdata]
  exact splitFirst_append '?' _ _ (by decide)

theorem presetQuery_split :
    splitChar '&'
        ("model=pulse-precision".data ++ '&' :: ("language=pt".data ++ '&' ::
          ("response_format=diarization".data ++ '&' ::
            ("insights=".data ++ ((quote (jsonDumps insightsPreset)).data ++ '&' ::
              ("anonymize=".data ++ (quote (jsonDumps anonymizePreset)).data)))))) =
      ["model=pulse-precision".data, "language=pt".data,
        "response_format=diarization".data,
        "insights=".data ++ (quote (jsonDumps insightsPreset)).data,
        "anonymize=".data ++ (quote (jsonDumps anonymizePreset)).data] := by
  have hno1 : '&' ∉ "insights=".data ++ (quote (jsonDumps insightsPreset)).data := by
    intro hmem
    rcases List.mem_append.mp hmem with hmem | hmem
    · exact (by decide : '&' ∉ ("insights=" : String).data) hmem
    · exact amp_not_mem_quote _ hmem
  have hno2 : '&' ∉ "anonymize=".data ++ (quote (jsonDumps anonymizePreset)).data := by
    intro hmem
    rcases List.mem_append.mp hmem with hmem | hmem
    · exact (by decide : '&' ∉ ("anonymize=" : String).data) hmem
    · exact amp_not_mem_quote _ hmem
  rw [splitChar_append '&' _ _ (by decide), splitChar_append '&' _ _ (by decide),
    splitChar_append '&' _ _ (by decide), ← List.append_assoc,
    splitChar_append '&' _ _ hno1, splitChar_not_mem '&' _ hno2]

theorem parseKV_insights :
    parseKV (['i', 'n', 's', 'i', 'g', 'h', 't', 's', '='] ++
        (quote (jsonDumps insightsPreset)).data) =
      ("insights", strBytes (jsonDumps insightsPreset)) := by
  have heq : (['i', 'n', 's', 'i', 'g', 'h', 't', 's', '='] : List Char) ++
        (quote (jsonDumps insightsPreset)).data =
      "insights".data ++ '=' :: (quote (jsonDumps insightsPreset)).data := by
    have h9 : (['i', 'n', 's', 'i', 'g', 'h', 't', 's', '='] : List Char) =
        "insights".data ++ ['='] := by decide
    rw [h9, List.append_assoc]
    rfl
  unfold parseKV
  rw [heq, splitFirst_append '=' _ _ (by decide)]
  dsimp only
  rw [pctDecode_quote]

theorem parseKV_anonymize :
    parseKV (['a', 'n', 'o', 'n', 'y', 'm', 'i', 'z', 'e', '='] ++
        (quote (jsonDumps anonymizePreset)).data) =
      ("anonymize", strBytes (jsonDumps anonymizePreset)) := by
  have heq : (['a', 'n', 'o', 'n', 'y', 'm', 'i', 'z', 'e', '='] : List Char) ++
        (quote (jsonDumps anonymizePreset)).data =
      "anonymize".data ++ '=' :: (quote (jsonDumps anonymizePreset)).data := by
    have h9 : (['a', 'n', 'o', 'n', 'y', 'm', 'i', 'z', 'e', '='] : List Char) =
        "anonymize".data ++ ['='] := by decide
    rw [h9, List.append_assoc]
    rfl
  unfold parseKV
  rw [heq, splitFirst_append '=' _ _ (by decide)]
  dsimp only
  rw [pctDecode_quote]

/-! ### Lemmas: the lexicographic order is total and transitive -/

theorem listLe_cons_iff (x y : Char) (xs ys : List Char) :
    listLe (x :: xs) (y :: ys) = true ↔
      x.toNat < y.toNat ∨ (x.toNat = y.toNat ∧ listLe xs ys = true) := by
  by_cases h1 : x.toNat < y.toNat
  · simp [listLe, h1]
  · by_cases h2 : y.toNat < x.toNat
    · simp only [listLe, if_neg h1, if_pos h2]
      constructor
      · intro h
        exact absurd h Bool.false_ne_true
      · intro h
        rcases h with h | ⟨h, _⟩ <;> omega
    · simp only [listLe, if_neg h1, if_neg h2]
      constructor
      · intro h
        exact Or.inr ⟨by omega, h⟩
      · intro h
        rcases h with h | ⟨_, h⟩
        · omega
        · exact h

theorem listLe_total : ∀ a b : List Char, listLe a b = true ∨ listLe b a = true := by
  intro a
  induction a with
  | nil => intro b; exact Or.inl rfl
  | cons x xs ih =>
    intro b
    cases b with
    | nil => exact Or.inr rfl
    | cons y ys =>
      rcases Nat.lt_trichotomy x.toNat y.toNat with h | h | h
      · exact Or.inl ((listLe_cons_iff ..).mpr (Or.inl h))
      · rcases ih ys with hr | hr
        · exact Or.inl ((listLe_cons_iff ..).mpr (Or.inr ⟨h, hr⟩))
        · exact Or.inr ((listLe_cons_iff ..).mpr (Or.inr ⟨h.symm, hr⟩))
      · exact Or.inr ((listLe_cons_iff ..).mpr (Or.inl h))

theorem listLe_trans : ∀ a b c : List Char,
    listLe a b = true → listLe b c = true → listLe a c = true := by
  intro a
  induction a with
  | nil => intro b c _ _; rfl
  | cons x xs ih =>
    intro b c hab hbc
    cases b with
    | nil => exact absurd hab Bool.false_ne_true
    | cons y ys =>
      cases c with
      | nil => exact absurd hbc Bool.false_ne_true
      | cons z zs =>
        rcases (listLe_cons_iff ..).mp hab with h | ⟨hxy, hab'⟩ <;>
          rcases (listLe_cons_iff ..).mp hbc with h' | ⟨hyz, hbc'⟩
        · exact (listLe_cons_iff ..).mpr (Or.inl (by omega))
        · exact (listLe_cons_iff ..).mpr (Or.inl (by omega))
        · exact (listLe_cons_iff ..).mpr (Or.inl (by omega))
        · exact (listLe_cons_iff ..).mpr (Or.inr ⟨by omega, ih ys zs hab' hbc'⟩)

/-! ### Lemmas: group-dict invariants of the discoverer -/

theorem groupKeys_groupInsert (gs : List (String × List FileInfo)) (k : String)
    (v : FileInfo) :
    groupKeys (groupInsert gs k v) =
      if k ∈ groupKeys gs then groupKeys gs else groupKeys gs ++ [k] := by
  induction gs with
  | nil => simp [groupInsert, groupKeys]
  | cons g rest ih =>
    obtain ⟨k', vs⟩ := g
    by_cases h : k' = k
    · subst h
      simp [groupInsert, groupKeys]
    · have hne : ¬(k = k') := fun hh => h hh.symm
      simp only [groupInsert, if_neg h, groupKeys, List.map_cons] at ih ⊢
      rw [ih]
      by_cases hmem : k ∈ List.map (fun x => x.1) rest
      · simp [hmem, List.mem_cons, hne]
      · simp [hmem, List.mem_cons, hne]

theorem nodup_groupKeys_groupInsert (gs : List (String × List FileInfo)) (k : String)
    (v : FileInfo) (h : (groupKeys gs).Nodup) :
    (groupKeys (groupInsert gs k v)).Nodup := by
  rw [groupKeys_groupInsert]
  by_cases hmem : k ∈ groupKeys gs
  · simpa [hmem] using h
  · simp [hmem, List.nodup_append, h]

theorem stemInv_groupInsert (gs : List (String × List FileInfo)) (k : String)
    (v : FileInfo) (hinv : StemInv gs) (hv : pathStem v.path = k) :
    StemInv (groupInsert gs k v) := by
  induction gs with
  | nil =>
    intro g hg f hf
    simp [groupInsert] at hg
    subst hg
    simp at hf
    subst hf
    exact hv
  | cons g rest ih =>
    obtain ⟨k', vs⟩ := g
    have hhead := hinv (k', vs) (List.mem_cons_self _ _)
    have hrest : StemInv rest := fun g' hg' => hinv g' (List.mem_cons_of_mem _ hg')
    by_cases h : k' = k
    · subst h
      intro g hg f hf
      simp only [groupInsert, if_pos rfl] at hg
      rcases List.mem_cons.mp hg with hg | hg
      · subst hg
        rcases List.mem_append.mp hf with hf | hf
        · exact hhead f hf
        · simp at hf
          subst hf
          exact hv
      · exact hrest g hg f hf
    · intro g hg f hf
      simp only [groupInsert, if_neg h] at hg
      rcases List.mem_cons.mp hg with hg | hg
      · subst hg
        exact hhead f hf
      · exact ih hrest g hg f hf

theorem buildGroups_fold_inv (entries : List FileEntry) :
    ∀ gs, (groupKeys gs).Nodup → StemInv gs →
      (groupKeys (entries.foldl buildStep gs)).Nodup ∧
        StemInv (entries.foldl buildStep gs) := by
  induction entries with
  | nil => intro gs h1 h2; exact ⟨h1, h2⟩
  | cons e rest ih =>
    intro gs h1 h2
    simp only [List.foldl_cons]
    by_cases ha : isAudioFile e
    · have hstep : buildStep gs e = groupInsert gs (pathStem e.path) (mkFileInfo e.path) := by
        simp [buildStep, ha]
      rw [hstep]
      exact ih _ (nodup_groupKeys_groupInsert _ _ _ h1)
        (stemInv_groupInsert _ _ _ h2 rfl)
    · have hstep : buildStep gs e = gs := by simp [buildStep, ha]
      rw [hstep]
      exact ih gs h1 h2

theorem buildGroups_inv (entries : List FileEntry) :
    (groupKeys (buildGroups entries)).Nodup ∧ StemInv (buildGroups entries) :=
  buildGroups_fold_inv entries [] (by simp [groupKeys]) (by intro g hg; simp at hg)

theorem unique_fold_eq (gs : List (String × List FileInfo)) (acc : List String) :
    gs.foldl
        (fun acc g =>
          match sortByPriority g.2 with
          | [] => acc
          | best :: _ => acc ++ [best.path])
        acc
      = acc ++ gs.filterMap selectBestPath := by
  induction gs generalizing acc with
  | nil => simp
  | cons g rest ih =>
    cases hsel : sortByPriority g.2 with
    | nil =>
      have h1 : selectBestPath g = none := by simp [selectBestPath, hsel]
      simp only [List.foldl_cons, hsel, List.filterMap_cons, h1]
      exact ih acc
    | cons best tail =>
      have h1 : selectBestPath g = some best.path := by simp [selectBestPath, hsel]
      simp only [List.foldl_cons, hsel, List.filterMap_cons, h1]
      rw [ih (acc ++ [best.path]), List.append_assoc]
      rfl

theorem stems_selected_sublist (gs : List (String × List FileInfo))
    (hinv : StemInv gs) :
    ((gs.filterMap selectBestPath).map pathStem).Sublist (groupKeys gs) := by
  induction gs with
  | nil => simp
  | cons g rest ih =>
    have hrest : StemInv rest := fun g' hg' => hinv g' (List.mem_cons_of_mem _ hg')
    cases hsel : selectBestPath g with
    | none =>
      simp only [List.filterMap_cons, hsel, groupKeys, List.map_cons]
      exact (ih hrest).cons g.1
    | some p =>
      have hp : pathStem p = g.1 := by
        unfold selectBestPath at hsel
        cases hq : sortByPriority g.2 with
        | nil =>
          rw [hq] at hsel
          cases hsel
        | cons best tail =>
          rw [hq] at hsel
          have hbp : best.path = p := Option.some.inj hsel
          have hmem : best ∈ sortByPriority g.2 := by
            rw [hq]
            exact List.mem_cons_self _ _
          have hmem' : best ∈ g.2 :=
            (List.perm_insertionSort _ g.2).subset hmem
          rw [← hbp]
          exact hinv g (List.mem_cons_self _ _) best hmem'
      simp only [List.filterMap_cons, hsel, List.map_cons, hp]
      exact (ih hrest).cons₂ g.1

/-! ### Lemmas: the batch loop -/

theorem runBatch_results_nil {ρ : Type} (oracle : String → Option ρ)
    (who : String → WebhookOutcome) (ep : Option String) (total : Nat) :
    ∀ (i : Nat) (files : List String), (∀ f ∈ files, oracle f = none) →
      (runBatch oracle who ep total i files).1 = [] := by
  intro i files
  induction files generalizing i with
  | nil => intro _; rfl
  | cons f rest ih =>
    intro h
    have hf : oracle f = none := h f (List.mem_cons_self _ _)
    have hr := ih (i + 1) (fun x hx => h x (List.mem_cons_of_mem _ hx))
    simp [runBatch, hf, hr]

theorem runBatch_results_ignore_who {ρ : Type} (oracle : String → Option ρ)
    (who who' : String → WebhookOutcome) (ep : Option String) (total : Nat) :
    ∀ (i : Nat) (files : List String),
      (runBatch oracle who ep total i files).1 =
        (runBatch oracle who' ep total i files).1 := by
  intro i files
  induction files generalizing i with
  | nil => rfl
  | cons f rest ih =>
    cases h : oracle f <;> simp [runBatch, h, ih (i + 1)]

theorem runBatch_mem_results {ρ : Type} (oracle : String → Option ρ)
    (who : String → WebhookOutcome) (ep : Option String) (total : Nat) :
    ∀ (i : Nat) (files : List String) (f : String) (r : ρ),
      f ∈ files → oracle f = some r →
      (⟨f, r⟩ : BatchEntry ρ) ∈ (runBatch oracle who ep total i files).1 := by
  intro i files
  induction files generalizing i with
  | nil => intro f r hf; cases hf
  | cons g rest ih =>
    intro f r hf hor
    rcases List.mem_cons.mp hf with hf | hf
    · subst hf
      simp [runBatch, hor]
    · have := ih (i + 1) f r hf hor
      cases hg : oracle g <;> simp [runBatch, hg, this]

/-! ### The claims -/

/-- Claim C1: when the files of a directory sharing a common stem are an
`.mp3`, a `.wav` and a `.flac` (in any encounter order), `get_unique_files`
selects exactly the `.mp3` path as the stem's sole representative, and the
duplicate report drops `.wav` and `.flac` (in priority order). -/
theorem C1_format_priority_selects_mp3 (p1 p2 p3 s : String)
    (h1 : pathSuffix p1 = ".mp3") (hs1 : pathStem p1 = s)
    (h2 : pathSuffix p2 = ".wav") (hs2 : pathStem p2 = s)
    (h3 : pathSuffix p3 = ".flac") (hs3 : pathStem p3 = s)
    (entries : List FileEntry)
    (horder :
      entries = [⟨p1, true⟩, ⟨p2, true⟩, ⟨p3, true⟩] ∨
      entries = [⟨p1, true⟩, ⟨p3, true⟩, ⟨p2, true⟩] ∨
      entries = [⟨p2, true⟩, ⟨p1, true⟩, ⟨p3, true⟩] ∨
      entries = [⟨p2, true⟩, ⟨p3, true⟩, ⟨p1, true⟩] ∨
      entries = [⟨p3, true⟩, ⟨p1, true⟩, ⟨p2, true⟩] ∨
      entries = [⟨p3, true⟩, ⟨p2, true⟩, ⟨p1, true⟩]) :
    get_unique_files (some entries) = [p1] ∧
    duplicateReport entries = [(s, [".wav", ".flac"])] := by
  have e1 : strLower (pathSuffix p1) = ".mp3" := by rw [h1]; decide
  have e2 : strLower (pathSuffix p2) = ".wav" := by rw [h2]; decide
  have e3 : strLower (pathSuffix p3) = ".flac" := by rw [h3]; decide
  have f1 : mkFileInfo p1 = ⟨p1, ".mp3", 0⟩ := by
    unfold mkFileInfo
    rw [e1, show extension_priority ".mp3" = 0 from by decide]
  have f2 : mkFileInfo p2 = ⟨p2, ".wav", 1⟩ := by
    unfold mkFileInfo
    rw [e2, show extension_priority ".wav" = 1 from by decide]
  have f3 : mkFileInfo p3 = ⟨p3, ".flac", 2⟩ := by
    unfold mkFileInfo
    rw [e3, show extension_priority ".flac" = 2 from by decide]
  rcases horder with h | h | h | h | h | h <;> subst h <;>
    simp [get_unique_files, buildGroups, buildStep, isAudioFile, e1, e2, e3,
      f1, f2, f3, hs1, hs2, hs3, groupInsert, sortByPriority,
      List.insertionSort, List.orderedInsert, duplicateReport, sortAlpha,
      selectBestPath, (by decide : (".mp3" : String) ∈ audio_extensions),
      (by decide : (".wav" : String) ∈ audio_extensions),
      (by decide : (".flac" : String) ∈ audio_extensions)]

/-- Concrete instantiation of the C1 theorem on `d/a.{mp3,wav,flac}`. -/
theorem C1_format_priority_selects_mp3_witness :
    get_unique_files
        (some [⟨"d/a.mp3", true⟩, ⟨"d/a.wav", true⟩, ⟨"d/a.flac", true⟩]) =
      ["d/a.mp3"] ∧
    duplicateReport [⟨"d/a.mp3", true⟩, ⟨"d/a.wav", true⟩, ⟨"d/a.flac", true⟩] =
      [("a", [".wav", ".flac"])] :=
  C1_format_priority_selects_mp3 "d/a.mp3" "d/a.wav" "d/a.flac" "a"
    (by decide) (by decide) (by decide) (by decide) (by decide) (by decide)
    _ (Or.inl rfl)

/-- Claim C2: once normalization has succeeded (a fresh temporary file
exists, never unlinked), every exit of the upload phase — HTTP 200, any
other status, a request exception, any other exception — unlinks the
normalized temporary file exactly once and leaves it absent. -/
theorem C2_temp_file_deleted_exactly_once {ρ : Type} (tmp : String)
    (o : UploadOutcome ρ) :
    (transcribe_file tmp .exitOk o).2.unlinks = 1 ∧
    (transcribe_file tmp .exitOk o).2.present = false := by
  cases o <;> exact ⟨rfl, rfl⟩

/-- Claim C3: the two request-shaping modes of `transcribe_file` produce
functionally identical remote requests: same endpoint, same decoded query
parameters, same multipart file part. -/
theorem C3_request_modes_equivalent (fn : String) :
    effectivePreset fn = effectiveRaw fn := by
  have hc1 : parseKV "model=pulse-precision".data =
      ("model", strBytes "pulse-precision") := by decide
  have hc2 : parseKV "language=pt".data = ("language", strBytes "pt") := by decide
  have hc3 : parseKV "response_format=diarization".data =
      ("response_format", strBytes "diarization") := by decide
  unfold effectivePreset
  rw [presetUrl_split]
  dsimp only
  unfold parseQuery
  rw [presetQuery_split]
  simp only [List.map_cons, List.map_nil, hc1, hc2, hc3, parseKV_insights,
    parseKV_anonymize]
  unfold effectiveRaw rawParams
  simp only [List.map_cons, List.map_nil]
  rw [show insightsPreset = insightsRaw from rfl,
    show anonymizePreset = anonymizeRaw from rfl]
  congr 1

/-- Counterexample to claim C4 as stated: when the transcoder executable is
unavailable (`FileNotFoundError`), `convert_audio_with_ffmpeg` returns
failure but its temporary output file still exists afterwards. -/
theorem C4_counterexample_exe_missing_keeps_temp :
    (convert_audio_with_ffmpeg "/tmp/out.mp3" .exeNotFound).1 = none ∧
    (convert_audio_with_ffmpeg "/tmp/out.mp3" .exeNotFound).2.present = true :=
  ⟨rfl, rfl⟩

/-- Claim C4 (amended): every failure of `convert_audio_with_ffmpeg` returns
`none`; on timeout, nonzero exit status, or any other unexpected error the
temporary output file is removed (one unlink), but when the transcoder
executable is unavailable the temporary file is left in place. -/
theorem C4_failure_cleanup_amended (tmp : String) (e : ConvEvent)
    (hfail : e ≠ ConvEvent.exitOk) :
    (convert_audio_with_ffmpeg tmp e).1 = none ∧
    (e ≠ ConvEvent.exeNotFound →
      (convert_audio_with_ffmpeg tmp e).2.present = false ∧
      (convert_audio_with_ffmpeg tmp e).2.unlinks = 1) ∧
    (e = ConvEvent.exeNotFound →
      (convert_audio_with_ffmpeg tmp e).2.present = true ∧
      (convert_audio_with_ffmpeg tmp e).2.unlinks = 0) := by
  cases e <;> simp_all [convert_audio_with_ffmpeg, unlinkIfExists]

/-- Concrete instantiation of the amended C4 theorem at a timeout. -/
theorem C4_failure_cleanup_amended_witness :
    ConvEvent.timeout ≠ ConvEvent.exitOk ∧
    ((convert_audio_with_ffmpeg "/tmp/out.mp3" .timeout).1 = none ∧
      (ConvEvent.timeout ≠ ConvEvent.exeNotFound →
        (convert_audio_with_ffmpeg "/tmp/out.mp3" .timeout).2.present = false ∧
        (convert_audio_with_ffmpeg "/tmp/out.mp3" .timeout).2.unlinks = 1) ∧
      (ConvEvent.timeout = ConvEvent.exeNotFound →
        (convert_audio_with_ffmpeg "/tmp/out.mp3" .timeout).2.present = true ∧
        (convert_audio_with_ffmpeg "/tmp/out.mp3" .timeout).2.unlinks = 0)) :=
  ⟨by decide, C4_failure_cleanup_amended "/tmp/out.mp3" .timeout (by decide)⟩

/-- Counterexample to claim C5 as stated: a batch (non-test) run with the
raw-parameters flag set still issues its transcription request with
`use_preset=True`, because `process_directory` calls `transcribe_file`
without forwarding the flag. -/
theorem C5_counterexample_batch_ignores_no_preset :
    ¬(∀ fl ∈ mainRequestPresetFlags (ρ := Unit)
        { test := false, noPreset := true, listFiles := false,
          maxFiles := none, webhook := none }
        (fun _ => none) (fun _ => WebhookOutcome.ok)
        (some [⟨"d/a.mp3", true⟩]), fl = false) := by
  decide

/-- Claim C5 (amended): the raw-parameters flag affects only the
single-file test mode, whose request uses `use_preset = not no_preset`;
every request of a batch run via `process_directory` uses the default
`use_preset=True`, ignoring the flag. -/
theorem C5_no_preset_only_in_test_mode {ρ : Type} (oracle : String → Option ρ)
    (who : String → WebhookOutcome) (dir : Directory) (args : Args)
    (hl : args.listFiles = false) :
    (args.test = true → ∀ tf, findTestFile dir = some tf →
      mainRequestPresetFlags args oracle who dir = [!args.noPreset]) ∧
    (args.test = false →
      mainRequestPresetFlags args oracle who dir =
        (process_directory oracle who dir args.webhook args.maxFiles).processed.map
          (fun _ => true)) := by
  constructor
  · intro ht tf htf
    simp [mainRequestPresetFlags, hl, ht, htf]
  · intro ht
    simp [mainRequestPresetFlags, hl, ht]

/-- Concrete instantiation of the amended C5 theorem: the test-mode request
honours the flag while the batch-mode request does not. -/
theorem C5_no_preset_only_in_test_mode_witness :
    mainRequestPresetFlags (ρ := Unit)
        { test := true, noPreset := true, listFiles := false,
          maxFiles := none, webhook := none }
        (fun _ => none) (fun _ => WebhookOutcome.ok)
        (some [⟨"d/a.mp3", true⟩]) = [!true] ∧
    mainRequestPresetFlags (ρ := Unit)
        { test := false, noPreset := true, listFiles := false,
          maxFiles := none, webhook := none }
        (fun _ => none) (fun _ => WebhookOutcome.ok)
        (some [⟨"d/a.mp3", true⟩]) =
      (process_directory (ρ := Unit) (fun _ => none) (fun _ => WebhookOutcome.ok)
          (some [⟨"d/a.mp3", true⟩]) none none).processed.map (fun _ => true) :=
  ⟨(C5_no_preset_only_in_test_mode (ρ := Unit) (fun _ => none)
      (fun _ => WebhookOutcome.ok) (some [⟨"d/a.mp3", true⟩])
      { test := true, noPreset := true, listFiles := false, maxFiles := none,
        webhook := none } rfl).1 rfl "d/a.mp3" (by decide),
    (C5_no_preset_only_in_test_mode (ρ := Unit) (fun _ => none)
      (fun _ => WebhookOutcome.ok) (some [⟨"d/a.mp3", true⟩])
      { test := false, noPreset := true, listFiles := false, maxFiles := none,
        webhook := none } rfl).2 rfl⟩

/-- Claim C6: for every directory, the list returned by `get_unique_files`
is sorted alphabetically (code-point lexicographic) and no two of its paths
have equal stems. -/
theorem C6_output_sorted_and_stem_unique (dir : Directory) :
    List.Sorted (fun a b => pyStrLe a b = true) (get_unique_files dir) ∧
    List.Pairwise (fun a b => pathStem a ≠ pathStem b) (get_unique_files dir) := by
  haveI ht : IsTotal String (fun a b => pyStrLe a b = true) :=
    ⟨fun a b => listLe_total a.data b.data⟩
  haveI htr : IsTrans String (fun a b => pyStrLe a b = true) :=
    ⟨fun a b c => listLe_trans a.data b.data c.data⟩
  cases dir with
  | none => constructor <;> simp [get_unique_files]
  | some entries =>
    obtain ⟨hnodup, hinv⟩ := buildGroups_inv entries
    have hget : get_unique_files (some entries) =
        sortAlpha ((buildGroups entries).filterMap selectBestPath) := by
      unfold get_unique_files
      dsimp only
      rw [unique_fold_eq]
      rw [List.nil_append]
    rw [hget]
    constructor
    · exact List.sorted_insertionSort _ _
    · have hnodupstems :
          (((buildGroups entries).filterMap selectBestPath).map pathStem).Nodup :=
        hnodup.sublist (stems_selected_sublist _ hinv)
      have hpw : ((buildGroups entries).filterMap selectBestPath).Pairwise
          (fun a b => pathStem a ≠ pathStem b) := List.pairwise_map.mp hnodupstems
      have hperm := List.perm_insertionSort (fun a b => pyStrLe a b = true)
        ((buildGroups entries).filterMap selectBestPath)
      exact (hperm.pairwise_iff (fun hne heq => hne heq.symm)).mpr hpw

/-- Claim C7: with `max_files=2` on a directory whose deduplicated sorted
list has 5 files, `process_directory` iterates exactly the first two files
in order, and the event trace is: process the first, one 2-second sleep,
process the second — no sleep after the second. -/
theorem C7_cap_two_first_two_one_delay {ρ : Type} (dir : Directory)
    (oracle : String → Option ρ) (who : String → WebhookOutcome)
    (f1 f2 f3 f4 f5 : String)
    (h : get_unique_files dir = [f1, f2, f3, f4, f5]) :
    (process_directory oracle who dir none (some 2)).processed = [f1, f2] ∧
    (process_directory oracle who dir none (some 2)).trace =
      [.proc f1 (oracle f1), .sleep 2, .proc f2 (oracle f2)] := by
  unfold process_directory
  rw [h]
  cases hr1 : oracle f1 <;> cases hr2 : oracle f2 <;>
    simp [pyTruthyNat, runBatch, hr1, hr2]

/-- Concrete instantiation of the C7 theorem on a five-file directory. -/
theorem C7_cap_two_first_two_one_delay_witness :
    (process_directory (ρ := Unit) (fun _ => none) (fun _ => WebhookOutcome.ok)
        (some [⟨"d/a.mp3", true⟩, ⟨"d/b.mp3", true⟩, ⟨"d/c.mp3", true⟩,
          ⟨"d/d.mp3", true⟩, ⟨"d/e.mp3", true⟩]) none (some 2)).processed =
      ["d/a.mp3", "d/b.mp3"] ∧
    (process_directory (ρ := Unit) (fun _ => none) (fun _ => WebhookOutcome.ok)
        (some [⟨"d/a.mp3", true⟩, ⟨"d/b.mp3", true⟩, ⟨"d/c.mp3", true⟩,
          ⟨"d/d.mp3", true⟩, ⟨"d/e.mp3", true⟩]) none (some 2)).trace =
      [.proc "d/a.mp3" none, .sleep 2, .proc "d/b.mp3" none] :=
  C7_cap_two_first_two_one_delay _ (fun _ => none) (fun _ => WebhookOutcome.ok)
    "d/a.mp3" "d/b.mp3" "d/c.mp3" "d/d.mp3" "d/e.mp3" (by decide)

/-- Claim C8: when every processed file fails transcription,
`process_directory` returns the empty list (without raising), and `main`
writes no results file; `main` writes the results file exactly when the
returned list is nonempty (at least one success). -/
theorem C8_all_fail_empty_no_output {ρ : Type} (dir : Directory)
    (oracle : String → Option ρ) (who : String → WebhookOutcome)
    (ep : Option String) (mf : Option Nat)
    (hfail : ∀ f ∈ (process_directory oracle who dir ep mf).processed,
      oracle f = none) :
    (process_directory oracle who dir ep mf).results = [] ∧
    mainWritesOutput (process_directory oracle who dir ep mf).results = false ∧
    ∀ rs : List (BatchEntry ρ), (mainWritesOutput rs = true ↔ rs ≠ []) := by
  have hres : (process_directory oracle who dir ep mf).results = [] := by
    unfold process_directory at hfail ⊢
    by_cases h : (get_unique_files dir).isEmpty
    · rw [if_pos h] at hfail ⊢
    · rw [if_neg h] at hfail ⊢
      exact runBatch_results_nil oracle who ep _ 1 _ hfail
  refine ⟨hres, ?_, ?_⟩
  · rw [hres]
    rfl
  · intro rs
    cases rs <;> simp [mainWritesOutput]

/-- Concrete instantiation of the C8 theorem with an always-failing
transcription oracle. -/
theorem C8_all_fail_empty_no_output_witness :
    (process_directory (ρ := Unit) (fun _ => none) (fun _ => WebhookOutcome.ok)
        (some [⟨"d/a.mp3", true⟩]) none none).results = [] ∧
    mainWritesOutput
        (process_directory (ρ := Unit) (fun _ => none)
          (fun _ => WebhookOutcome.ok) (some [⟨"d/a.mp3", true⟩]) none
          none).results = false :=
  ⟨(C8_all_fail_empty_no_output _ (fun _ => none) (fun _ => WebhookOutcome.ok)
      none none (fun _ _ => rfl)).1,
    (C8_all_fail_empty_no_output _ (fun _ => none) (fun _ => WebhookOutcome.ok)
      none none (fun _ _ => rfl)).2.1⟩

/-- Claim C9: webhook forwarding never raises (it is a total function into
`Bool`), and its outcome does not affect the success list: the results are
identical under any two webhook behaviours, and a successfully transcribed
file's `{file, transcription}` entry is in the returned list whatever the
webhook outcome. -/
theorem C9_webhook_failure_keeps_entry {ρ : Type} (dir : Directory)
    (oracle : String → Option ρ) (who who' : String → WebhookOutcome)
    (ep : Option String) (mf : Option Nat) (f : String) (r : ρ)
    (hor : oracle f = some r)
    (hproc : f ∈ (process_directory oracle who dir ep mf).processed) :
    (process_directory oracle who dir ep mf).results =
      (process_directory oracle who' dir ep mf).results ∧
    (⟨f, r⟩ : BatchEntry ρ) ∈ (process_directory oracle who dir ep mf).results := by
  unfold process_directory at hproc ⊢
  dsimp only at hproc ⊢
  by_cases h : (get_unique_files dir).isEmpty
  · rw [if_pos h] at hproc
    cases hproc
  · simp only [if_neg h] at hproc ⊢
    exact ⟨runBatch_results_ignore_who oracle who who' ep _ 1 _,
      runBatch_mem_results oracle who ep _ 1 _ f r hproc hor⟩

/-- Concrete instantiation of the C9 theorem: an always-throwing webhook
versus an always-succeeding one. -/
theorem C9_webhook_failure_keeps_entry_witness :
    (process_directory (ρ := Unit) (fun _ => some ())
        (fun _ => WebhookOutcome.exc) (some [⟨"d/a.mp3", true⟩])
        (some "http://wh") none).results =
      (process_directory (ρ := Unit) (fun _ => some ())
        (fun _ => WebhookOutcome.ok) (some [⟨"d/a.mp3", true⟩])
        (some "http://wh") none).results ∧
    (⟨"d/a.mp3", ()⟩ : BatchEntry Unit) ∈
      (process_directory (ρ := Unit) (fun _ => some ())
        (fun _ => WebhookOutcome.exc) (some [⟨"d/a.mp3", true⟩])
        (some "http://wh") none).results :=
  C9_webhook_failure_keeps_entry _ (fun _ => some ())
    (fun _ => WebhookOutcome.exc) (fun _ => WebhookOutcome.ok)
    (some "http://wh") none "d/a.mp3" () rfl (by decide)

/-- Claim C10: `max_files = 0` is falsy for Python's `if max_files:`, so
the cap is not applied at all: `process_directory` iterates every unique
file of the directory, not zero files. -/
theorem C10_cap_zero_processes_all {ρ : Type} (dir : Directory)
    (oracle : String → Option ρ) (who : String → WebhookOutcome)
    (ep : Option String) :
    (process_directory oracle who dir ep (some 0)).processed =
      get_unique_files dir := by
  unfold process_directory
  by_cases h : (get_unique_files dir).isEmpty
  · rw [if_pos h]
    have h' : get_unique_files dir = [] := by simpa using h
    simp [h']
  · rw [if_neg h]
    simp [pyTruthyNat]

end TalkIntel
